import Mathlib

/-!
Verification of the career-page discovery core of the Job-Search-App
repository (src/app.py, class JobHunterApp).

Strings are modelled as lists of characters.  Python string operations are
embedded as executable Lean functions: `lower` models `str.lower` (ASCII
case mapping; full-Unicode case mapping is outside the model),
`containsSub` models the Python `in` substring test, `pyStrip` models
`str.strip`, `pyReplace` models `str.replace`, `pyTitle` models
`str.title`, `pyTake` models the slice `l[:n]`.  `urlparse_netloc` models
the netloc extraction of `urllib.parse.urlparse`: control characters
(tab, CR, LF) are removed, a leading `scheme:` is stripped, the netloc is
the text between a leading `//` and the first of `/`, `?`, `#`, and a
netloc with unbalanced square brackets raises (modelled as `none`).  The
bracketed-host validation added in later Python versions and the
non-ASCII NFKC check are not modelled; ASCII inputs are unaffected.
Floating point scores are modelled as exact rationals.
-/

namespace JobHunter

/-- Text is modelled as a list of characters. -/
abbrev Str := List Char

/-- Models Python `str.lower` (ASCII case mapping). -/
def lower (s : Str) : Str := s.map Char.toLower

/-- Models the Python substring test `pat in s`. -/
def containsSub (pat : Str) : Str → Bool
  | [] => pat.isEmpty
  | c :: rest => pat.isPrefixOf (c :: rest) || containsSub pat rest

/-- Models Python `str.strip` (whitespace removed from both ends). -/
def pyStrip (s : Str) : Str :=
  ((s.dropWhile Char.isWhitespace).reverse.dropWhile Char.isWhitespace).reverse

/-- Models the Python slice `l[:n]` (a negative bound counts from the end). -/
def pyTake {α : Type} (n : Int) (l : List α) : List α :=
  if n < 0 then l.take (l.length - (-n).toNat) else l.take n.toNat

/-- Fuel-based worker for `pyReplace`; the fuel is at least the length of
the string, so it never runs out. -/
def pyReplaceAux (pat rep : Str) : Nat → Str → Str
  | 0, s => s
  | fuel + 1, s =>
    if !pat.isEmpty && pat.isPrefixOf s then
      rep ++ pyReplaceAux pat rep fuel (s.drop pat.length)
    else
      match s with
      | [] => []
      | c :: rest => c :: pyReplaceAux pat rep fuel rest

/-- Models Python `str.replace pat rep`: replaces the non-overlapping
occurrences of `pat`, scanning left to right. -/
def pyReplace (pat rep s : Str) : Str :=
  if pat.isEmpty then rep ++ s.flatMap (fun c => c :: rep)
  else pyReplaceAux pat rep s.length s

/-- Worker for `pyTitle`; the flag records whether the previous character
was a letter. -/
def pyTitleAux : Bool → Str → Str
  | _, [] => []
  | prevAlpha, c :: rest =>
    (if c.isAlpha then (if prevAlpha then c.toLower else c.toUpper) else c)
      :: pyTitleAux c.isAlpha rest

/-- Models Python `str.title` (ASCII letters). -/
def pyTitle (s : Str) : Str := pyTitleAux false s

/-- Text before the first occurrence of the separator `sep` (the whole
string when `sep` is absent); models `s.split(sep)[0]` for nonempty
`sep`. -/
def takeBefore (sep : Str) : Str → Str
  | [] => []
  | c :: rest => if sep.isPrefixOf (c :: rest) then [] else c :: takeBefore sep rest

/-- Characters allowed in a URL scheme after the first letter. -/
def scheme_char (c : Char) : Bool :=
  c.isAlpha || c.isDigit || c = '+' || c = '-' || c = '.'

/-- Removal of tab, CR and LF, as done by `urlsplit` before parsing. -/
def stripCtlChars (s : Str) : Str :=
  s.filter (fun c => !(c = '\t' || c = '\r' || c = '\n'))

/-- Strips a leading `scheme:` when the text up to the first colon is a
well-formed scheme (first character an ASCII letter, the rest scheme
characters). -/
def stripScheme (s : Str) : Str :=
  match s.findIdx? (· = ':') with
  | none => s
  | some i =>
    if decide (0 < i) && (s.headD ' ').isAlpha && (s.take i).all scheme_char
    then s.drop (i + 1) else s

/-- Delimiters ending the netloc. -/
def netlocDelim (c : Char) : Bool := c = '/' || c = '?' || c = '#'

/-- Models the netloc component computed by `urllib.parse.urlparse`:
`some netloc` on success, `none` when parsing raises (unbalanced square
brackets in the netloc). -/
def urlparse_netloc (url : Str) : Option Str :=
  match stripScheme (stripCtlChars url) with
  | '/' :: '/' :: rest =>
    let netloc := rest.takeWhile (fun c => !netlocDelim c)
    if (netloc.contains '[' && !netloc.contains ']')
        || (netloc.contains ']' && !netloc.contains '[')
    then none
    else some netloc
  | _ => some []

/-- Embeds `JobHunterApp.extract_domain`: the lower-cased netloc with all
occurrences of `www.` removed; on a parse failure the raw URL string. -/
def extract_domain (url : Str) : Str :=
  match urlparse_netloc url with
  | some netloc => pyReplace ("www.".toList) [] (lower netloc)
  | none => url

/-- Embeds `JobHunterApp.extract_company_name`. -/
def extract_company_name (title url : Str) : Str :=
  let potential := pyStrip (takeBefore (" - ".toList) title)
  if containsSub (" - ".toList) title
      && decide (potential.length < 50)
      && !((["career", "job", "hiring"]).map String.toList).any
            (fun w => containsSub w (lower potential))
  then potential
  else
    match urlparse_netloc url with
    | none => ("Unknown Company".toList)
    | some netloc =>
      let domain := pyReplace ("jobs.".toList) []
        (pyReplace ("careers.".toList) [] (pyReplace ("www.".toList) [] (lower netloc)))
      if domain.contains '.' then
        pyTitle (pyReplace ("-".toList) (" ".toList) (takeBefore (".".toList) domain))
      else pyTitle domain

/-- A search criteria record, as put together by the UI (`search_criteria`);
each field models one key of the Python dict, absent keys as `none`. -/
structure Criteria where
  industry : Option Str
  company_size : Option Str
  location : Option Str
  exclude_keywords : Option Str
  num_results : Option Int
deriving DecidableEq

/-- A raw search hit as built by `make_single_serp_call` (`raw_result`). -/
structure SearchHit where
  title : Str
  url : Str
  snippet : Str
  displayed_link : Str
  position : Option Int
  search_query : Str
deriving DecidableEq

/-- A career-page candidate as built by `filter_career_pages_locally`
(`career_page`).  The floating point relevance score is modelled as an
exact rational. -/
structure CareerPage where
  company_name : Str
  title : Str
  career_url : Str
  description : Str
  domain : Str
  industry : Str
  company_size : Str
  relevance_score : ℚ
deriving DecidableEq

/-- An organic result of the external search service; every key may be
absent. -/
structure SerpResult where
  title : Option Str
  link : Option Str
  snippet : Option Str
  displayed_link : Option Str
  position : Option Int
deriving DecidableEq

/-- Embeds the `raw_result` construction in `make_single_serp_call`:
missing text fields default to the empty string and a missing position
defaults to `0`. -/
def mkRawResult (q : Str) (r : SerpResult) : SearchHit :=
  { title := r.title.getD []
    url := r.link.getD []
    snippet := r.snippet.getD []
    displayed_link := r.displayed_link.getD []
    position := some (r.position.getD 0)
    search_query := q }

/-- URL quality term of `calculate_relevance_score`. -/
def url_quality_score (r : SearchHit) : ℚ :=
  let url := lower r.url
  if containsSub ("careers.".toList) url || containsSub ("/careers".toList) url then 3
  else if containsSub ("jobs.".toList) url || containsSub ("/jobs".toList) url then 5/2
  else if ((["hiring", "employment", "talent"]).map String.toList).any
      (fun k => containsSub k url) then 2
  else 0

/-- Title relevance term of `calculate_relevance_score`: the lower-cased
industry label is split on the ampersand and each piece is looked up in
the lower-cased title as a substring. -/
def industry_title_score (r : SearchHit) (c : Criteria) : ℚ :=
  let title := lower r.title
  let industry := lower (c.industry.getD [])
  if (industry.splitOn '&').any (fun w => containsSub w title) then 2 else 0

/-- Company size term of `calculate_relevance_score`. -/
def company_size_score (r : SearchHit) (c : Criteria) : ℚ :=
  let title := lower r.title
  let snippet := lower r.snippet
  let cs := lower (c.company_size.getD [])
  if containsSub ("mnc".toList) cs || containsSub ("large".toList) cs then
    if ((["fortune", "global", "multinational", "corporation"]).map String.toList).any
        (fun t => containsSub t title || containsSub t snippet) then 3/2 else 0
  else if containsSub ("startup".toList) cs then
    if ((["startup", "emerging", "innovative", "scale"]).map String.toList).any
        (fun t => containsSub t title || containsSub t snippet) then 3/2 else 0
  else 0

/-- Domain authority term of `calculate_relevance_score` for `.com`. -/
def dot_com_score (r : SearchHit) : ℚ :=
  if containsSub (".com".toList) (lower r.url) then 1/2 else 0

/-- Domain authority term of `calculate_relevance_score` for `www.`. -/
def www_score (r : SearchHit) : ℚ :=
  if containsSub ("www.".toList) (lower r.url) then 3/10 else 0

/-- Search rank term of `calculate_relevance_score`: a missing position
key defaults to `10`. -/
def position_score (r : SearchHit) : ℚ :=
  let p : Int := r.position.getD 10
  max 0 ((10 - (p : ℚ)) * (1/10))

/-- Embeds `JobHunterApp.calculate_relevance_score` as the sum of its
additive terms, in the order the code adds them. -/
def calculate_relevance_score (r : SearchHit) (c : Criteria) : ℚ :=
  url_quality_score r + industry_title_score r c + company_size_score r c
    + dot_com_score r + www_score r + position_score r

/-- The caller-supplied exclusion terms: the `exclude_keywords` text,
lower-cased, split on commas, each term stripped, empty terms dropped;
an absent or empty text gives no terms. -/
def excluded_keywords_of (c : Criteria) : List Str :=
  match c.exclude_keywords with
  | none => []
  | some s =>
    if s.isEmpty then []
    else (((lower s).splitOn ',').map pyStrip).filter (fun k => !k.isEmpty)

/-- Career-page indicators looked up in the URL. -/
def career_url_keywords : List Str :=
  (["career", "careers", "job", "jobs", "hiring", "employment",
    "talent", "work", "opportunity", "join", "apply", "openings"]).map String.toList

/-- Career-page indicators looked up in the title. -/
def career_title_keywords : List Str :=
  (["career", "careers", "job", "jobs", "hiring", "employment",
    "work at", "join", "talent", "opportunities"]).map String.toList

/-- The fixed exclusion patterns (job boards, recruiters and agencies). -/
def fixed_exclude_patterns : List Str :=
  (["indeed", "linkedin", "glassdoor", "monster", "ziprecruiter",
    "simplyhired", "careerbuilder", "dice", "recruiter", "recruitment",
    "staffing", "headhunter", "talent agency", "consulting"]).map String.toList

/-- The fixed exclusion patterns plus the caller-supplied terms. -/
def exclude_patterns (c : Criteria) : List Str :=
  fixed_exclude_patterns ++ excluded_keywords_of c

/-- URL career signal of the local filter. -/
def is_career_url (r : SearchHit) : Bool :=
  career_url_keywords.any (fun k => containsSub k (lower r.url))

/-- Title career signal of the local filter. -/
def is_career_title (r : SearchHit) : Bool :=
  career_title_keywords.any (fun k => containsSub k (lower r.title))

/-- Snippet career signal of the local filter (first six URL keywords). -/
def has_career_content (r : SearchHit) : Bool :=
  (career_url_keywords.take 6).any (fun k => containsSub k (lower r.snippet))

/-- Exclusion check of the local filter. -/
def is_excluded (c : Criteria) (r : SearchHit) : Bool :=
  (exclude_patterns c).any (fun p =>
    containsSub p (lower r.url) || containsSub p (lower r.title)
      || containsSub p (lower r.snippet))

/-- The admission condition of one loop iteration of
`filter_career_pages_locally`: a career signal fires, no exclusion
pattern occurs, and the domain was not seen before. -/
def admitCond (c : Criteria) (seen : List Str) (r : SearchHit) : Bool :=
  (is_career_url r || is_career_title r || has_career_content r)
    && !is_excluded c r
    && !(decide (extract_domain r.url ∈ seen))

/-- The `career_page` record built for an admitted hit. -/
def mkCareerPage (c : Criteria) (r : SearchHit) : CareerPage :=
  { company_name := extract_company_name r.title r.url
    title := r.title
    career_url := r.url
    description := r.snippet
    domain := extract_domain r.url
    industry := c.industry.getD ("Unknown".toList)
    company_size := c.company_size.getD ("Unknown".toList)
    relevance_score := calculate_relevance_score r c }

/-- The admission loop of `filter_career_pages_locally`: hits are scanned
in order, an admitted hit appends its page and marks its domain as seen. -/
def scan (c : Criteria) : List SearchHit → List Str → List CareerPage
  | [], _ => []
  | r :: rest, seen =>
    if admitCond c seen r
    then mkCareerPage c r :: scan c rest (extract_domain r.url :: seen)
    else scan c rest seen

/-- The seen-domain set (as a list) after scanning a list of hits. -/
def seenAfter (c : Criteria) : List SearchHit → List Str → List Str
  | [], seen => seen
  | r :: rest, seen =>
    seenAfter c rest (if admitCond c seen r then extract_domain r.url :: seen else seen)

/-- Insertion into a descending-sorted list, after all entries with an
equal or larger score: the building block of the stable descending sort. -/
def insertDesc (x : CareerPage) : List CareerPage → List CareerPage
  | [] => [x]
  | y :: ys =>
    if y.relevance_score < x.relevance_score then x :: y :: ys else y :: insertDesc x ys

/-- Models the stable sort `career_pages.sort(key=relevance_score,
reverse=True)`: descending scores, ties keep their original order. -/
def pySortDesc (l : List CareerPage) : List CareerPage :=
  l.foldl (fun acc x => insertDesc x acc) []

/-- Embeds `JobHunterApp.filter_career_pages_locally`. -/
def filter_career_pages_locally (raw_results : List SearchHit) (criteria : Criteria) :
    List CareerPage :=
  if raw_results.isEmpty then []
  else pySortDesc (scan criteria raw_results [])

/-- The static size-keyword table of `make_single_serp_call`
(`size_keywords.get(company_size, "")`). -/
def size_keywords (company_size : Str) : Str :=
  if company_size = ("MNCs (Large Corporations)".toList) then
    ("Fortune 500 OR multinational OR corporation OR large company OR enterprise".toList)
  else if company_size = ("Startups (Small to Medium)".toList) then
    ("startup OR emerging company OR scale-up OR tech company OR innovation".toList)
  else []

/-- The static industry-keyword table of `make_single_serp_call`
(`industry_keywords.get(industry, industry)`). -/
def industry_keywords (industry : Str) : Str :=
  if industry = ("Technology & Software".toList) then
    ("software OR technology OR IT OR tech OR SaaS OR cloud OR AI OR data science".toList)
  else if industry = ("Financial Services & Fintech".toList) then
    ("bank OR financial OR fintech OR investment OR trading OR insurance OR payments".toList)
  else if industry = ("Healthcare & Biotechnology".toList) then
    ("healthcare OR biotech OR pharmaceutical OR medical OR health tech OR life sciences".toList)
  else if industry = ("E-commerce & Retail".toList) then
    ("ecommerce OR retail OR marketplace OR shopping OR consumer goods OR fashion".toList)
  else if industry = ("Consulting & Professional Services".toList) then
    ("consulting OR advisory OR professional services OR strategy OR management".toList)
  else if industry = ("Manufacturing & Automotive".toList) then
    ("manufacturing OR automotive OR industrial OR machinery OR production OR engineering".toList)
  else if industry = ("Media & Entertainment".toList) then
    ("media OR entertainment OR content OR streaming OR publishing OR creative".toList)
  else if industry = ("Energy & Utilities".toList) then
    ("energy OR utilities OR renewable OR oil OR gas OR power OR electricity".toList)
  else if industry = ("Real Estate & Construction".toList) then
    ("real estate OR construction OR property OR architecture OR development".toList)
  else if industry = ("Education & EdTech".toList) then
    ("education OR edtech OR learning OR training OR university OR academic".toList)
  else if industry = ("Food & Beverage".toList) then
    ("food OR beverage OR restaurant OR hospitality OR culinary OR agriculture".toList)
  else if industry = ("Transportation & Logistics".toList) then
    ("logistics OR transportation OR supply chain OR shipping OR delivery".toList)
  else if industry = ("Telecommunications".toList) then
    ("telecom OR telecommunications OR wireless OR network OR connectivity".toList)
  else if industry = ("Gaming & Digital Entertainment".toList) then
    ("gaming OR game development OR digital entertainment OR esports".toList)
  else if industry = ("Aerospace & Defense".toList) then
    ("aerospace OR defense OR aviation OR space OR military OR aircraft".toList)
  else industry

/-- Embeds the query construction of `make_single_serp_call`
(`final_query`): parenthesized industry terms, parenthesized size terms
when nonempty, a location clause when nonempty, the fixed career group,
joined by single spaces. -/
def final_query (industry company_size location : Str) : Str :=
  let industry_terms := industry_keywords industry
  let size_terms := size_keywords company_size
  let parts : List Str :=
    [("(".toList) ++ industry_terms ++ (")".toList)]
      ++ (if size_terms.isEmpty then [] else [("(".toList) ++ size_terms ++ (")".toList)])
      ++ (if location.isEmpty then [] else [("location:".toList) ++ location])
      ++ [("(careers OR jobs OR hiring OR employment)".toList)]
  List.intercalate (" ".toList) parts

/-- The two company-size labels offered by the UI (`self.company_sizes`). -/
def company_sizes : List Str :=
  (["MNCs (Large Corporations)", "Startups (Small to Medium)"]).map String.toList

/-- Embeds the result mapping of `make_single_serp_call`: every organic
result becomes a `raw_result` carrying the final query. -/
def make_single_serp_call_results (industry company_size location : Str)
    (organic_results : List SerpResult) : List SearchHit :=
  organic_results.map (mkRawResult (final_query industry company_size location))

/-- The requested result count, `criteria.get(..., 20)`. -/
def pyNumResults (c : Criteria) : Int := c.num_results.getD 20

/-- Models `setup_api_keys`: the service client exists only when the API
key, the endpoint and the deployment name are all present and nonempty. -/
def azure_client_configured (api_key endpoint deployment : Option Str) : Bool :=
  (match api_key with | none => false | some s => !s.isEmpty)
    && (match endpoint with | none => false | some s => !s.isEmpty)
    && (match deployment with | none => false | some s => !s.isEmpty)

/-- The candidates summarized for the model prompt: the first 100
(`career_pages[:100]`). -/
def pages_summary (career_pages : List CareerPage) : List CareerPage :=
  career_pages.take 100

/-- The candidates whose summaries enter the outbound request: the first
50 summaries (`pages_summary[:50]`). -/
def prompt_companies (career_pages : List CareerPage) : List CareerPage :=
  (pages_summary career_pages).take 50

/-- The index mapping of `filter_career_pages_with_llm`: each 1-based
index between 1 and the length of the full candidate list selects that
candidate; other indices are dropped. -/
def selected_pages (career_pages : List CareerPage) (selected_indices : List Int) :
    List CareerPage :=
  selected_indices.filterMap (fun idx =>
    if 1 ≤ idx ∧ idx ≤ (career_pages.length : Int)
    then career_pages[(idx - 1).toNat]? else none)

/-- Embeds `JobHunterApp.filter_career_pages_with_llm`.  The service is
an oracle input: `azure_client` tells whether a client is configured, and
`llm_selected` is the parse outcome of the response text
(`none` when `json.loads` raises, `some indices` for the parsed
`selected_companies` list). -/
def filter_career_pages_with_llm (azure_client : Bool)
    (career_pages : List CareerPage) (criteria : Criteria)
    (llm_selected : Option (List Int)) : List CareerPage :=
  if !azure_client || career_pages.isEmpty then career_pages
  else
    match llm_selected with
    | none => pyTake (pyNumResults criteria) career_pages
    | some selected_indices =>
      let filtered_pages := selected_pages career_pages selected_indices
      if !filtered_pages.isEmpty then pyTake (pyNumResults criteria) filtered_pages
      else pyTake (pyNumResults criteria) career_pages

/-- Case-insensitive occurrence of a pattern in a text, the reading used
by the specification. -/
def occursCI (p t : Str) : Bool := containsSub (lower p) (lower t)

/-- Claim-side career signal, spelled from the specification wording. -/
def claim_career_signal (r : SearchHit) : Bool :=
  ((["career", "careers", "job", "jobs", "hiring", "employment",
     "talent", "work", "opportunity", "join", "apply", "openings"]).map String.toList).any
      (fun k => containsSub k (lower r.url))
  || ((["career", "careers", "job", "jobs", "hiring", "employment",
        "work at", "join", "talent", "opportunities"]).map String.toList).any
      (fun k => containsSub k (lower r.title))
  || ((["career", "careers", "job", "jobs", "hiring", "employment"]).map String.toList).any
      (fun k => containsSub k (lower r.snippet))

/-- Claim-side exclusion list: the fixed brand and agency terms unioned
with the caller-supplied terms (lower-cased, trimmed, empty dropped). -/
def claim_excluded_terms (c : Criteria) : List Str :=
  fixed_exclude_patterns ++ excluded_keywords_of c

/-- Claim-side exclusion check: none of the terms occurs
case-insensitively in the URL, the title or the snippet. -/
def claim_not_excluded (c : Criteria) (r : SearchHit) : Bool :=
  !(claim_excluded_terms c).any (fun p =>
    occursCI p r.url || occursCI p r.title || occursCI p r.snippet)

/-- Removal of only a leading `www.` prefix. -/
def stripLeadingWWW (l : Str) : Str :=
  if ("www.".toList).isPrefixOf l then l.drop 4 else l

/-- Domain normalization as worded by the specification: the lower-cased
netloc with only a leading `www.` prefix stripped, the raw URL on a parse
failure. -/
def extract_domain_claim (url : Str) : Str :=
  match urlparse_netloc url with
  | some netloc => stripLeadingWWW (lower netloc)
  | none => url

/-- Eligibility of a hit for a given domain, ignoring deduplication: the
career signal fires, no exclusion pattern occurs, and the URL normalizes
to that domain. -/
def eligibleFor (c : Criteria) (d : Str) (r : SearchHit) : Bool :=
  (is_career_url r || is_career_title r || has_career_content r)
    && !is_excluded c r && decide (extract_domain r.url = d)

/-- A criteria record with a plain industry label, no size, no location
and empty exclusion keywords, used by the concrete theorems below. -/
def critPlain : Criteria :=
  { industry := some ("x".toList), company_size := some [], location := some []
    exclude_keywords := some [], num_results := some 5 }

/-- A hit on the `acme.com` domain whose text carries no career signal. -/
def hitAbout : SearchHit :=
  { title := ("zzz".toList), url := ("https://acme.com/about".toList)
    snippet := ("zzz".toList), displayed_link := [], position := some 1
    search_query := [] }

/-- A hit on the `acme.com` domain whose URL carries a career signal. -/
def hitCareers : SearchHit :=
  { title := ("zzz".toList), url := ("https://acme.com/careers".toList)
    snippet := ("zzz".toList), displayed_link := [], position := some 2
    search_query := [] }

/-- A criteria record for the Technology and Software industry. -/
def critTech : Criteria :=
  { industry := some ("Technology & Software".toList), company_size := none
    location := none, exclude_keywords := none, num_results := none }

/-- A hit whose title contains the industry token `software` but neither
piece of the ampersand split of the industry label. -/
def hitSoftware : SearchHit :=
  { title := ("software careers".toList), url := [], snippet := []
    displayed_link := [], position := some 1, search_query := [] }

/-- A hit whose title contains the piece `technology ` of the ampersand
split of the industry label. -/
def hitTechNews : SearchHit :=
  { title := ("technology news".toList), url := [], snippet := []
    displayed_link := [], position := some 1, search_query := [] }

/-- A search-service result that carries no position field. -/
def srNoPos : SerpResult :=
  { title := some [], link := some [], snippet := some []
    displayed_link := some [], position := none }

/-- A search-service result at rank three. -/
def srPos3 : SerpResult :=
  { title := some [], link := some [], snippet := some []
    displayed_link := some [], position := some 3 }

/-- A hit record whose position key is absent. -/
def hitNoPos : SearchHit :=
  { title := [], url := [], snippet := [], displayed_link := []
    position := none, search_query := [] }

/-- A minimal distinct candidate page (distinguished by its title). -/
def mkTestPage (n : Nat) : CareerPage :=
  { company_name := [], title := [Char.ofNat (65 + n)], career_url := []
    description := [], domain := [], industry := [], company_size := []
    relevance_score := 0 }

/-- Fifty-one distinct candidate pages. -/
def pagesFiftyOne : List CareerPage := (List.range 51).map mkTestPage

/-- A criteria record requesting one result. -/
def critOne : Criteria :=
  { industry := none, company_size := none, location := none
    exclude_keywords := none, num_results := some 1 }

/-! ## Helper lemmas about characters and lower-casing -/

theorem char_toNat_ofNat_valid (n : Nat) (h : n.isValidChar) : (Char.ofNat n).toNat = n := by
  unfold Char.ofNat
  rw [dif_pos h]
  unfold Char.ofNatAux Char.toNat
  simp [UInt32.toNat]

theorem toLower_eq (c : Char) :
    c.toLower = if c.toNat ≥ 65 ∧ c.toNat ≤ 90 then Char.ofNat (c.toNat + 32) else c := rfl

theorem toLower_idem (c : Char) : c.toLower.toLower = c.toLower := by
  by_cases h : c.toNat ≥ 65 ∧ c.toNat ≤ 90
  · have hv : (c.toNat + 32).isValidChar := Or.inl (by omega)
    have h1 : c.toLower = Char.ofNat (c.toNat + 32) := by rw [toLower_eq, if_pos h]
    rw [h1, toLower_eq, char_toNat_ofNat_valid _ hv, if_neg (by omega)]
  · have h1 : c.toLower = c := by rw [toLower_eq, if_neg h]
    rw [h1, h1]

theorem toLower_eq_self_of_mem_lower {c : Char} {s : Str} (h : c ∈ lower s) :
    c.toLower = c := by
  unfold lower at h
  obtain ⟨c0, _, rfl⟩ := List.mem_map.mp h
  exact toLower_idem c0

theorem lower_eq_self {s : Str} (h : ∀ c ∈ s, c.toLower = c) : lower s = s := by
  unfold lower
  rw [List.map_congr_left h]
  simp

/-! ## Helper lemmas about the Python string helpers -/

theorem mem_of_mem_pyStrip {c : Char} {s : Str} (h : c ∈ pyStrip s) : c ∈ s := by
  unfold pyStrip at h
  rw [List.mem_reverse] at h
  have h1 := (List.dropWhile_sublist (l := (s.dropWhile Char.isWhitespace).reverse)
    Char.isWhitespace).mem h
  rw [List.mem_reverse] at h1
  exact (List.dropWhile_sublist (l := s) Char.isWhitespace).mem h1

theorem mem_of_mem_splitOnP {p : Char → Bool} {c : Char} :
    ∀ {s piece : Str}, piece ∈ List.splitOnP p s → c ∈ piece → c ∈ s := by
  intro s
  induction s with
  | nil =>
    intro piece hp hc
    rw [List.splitOnP_nil, List.mem_singleton] at hp
    subst hp
    exact absurd hc (List.not_mem_nil c)
  | cons x xs ih =>
    intro piece hp hc
    rw [List.splitOnP_cons] at hp
    by_cases hx : p x = true
    · rw [if_pos hx] at hp
      rcases List.mem_cons.mp hp with h1 | h1
      · subst h1
        exact absurd hc (List.not_mem_nil c)
      · exact List.mem_cons_of_mem x (ih h1 hc)
    · rw [if_neg hx] at hp
      cases hsp : List.splitOnP p xs with
      | nil => rw [hsp] at hp; exact absurd hp (List.not_mem_nil piece)
      | cons h t =>
        rw [hsp] at hp
        rcases List.mem_cons.mp hp with h1 | h1
        · subst h1
          rcases List.mem_cons.mp hc with h2 | h2
          · subst h2; exact List.mem_cons_self c xs
          · have : h ∈ List.splitOnP p xs := by rw [hsp]; exact List.mem_cons_self h t
            exact List.mem_cons_of_mem x (ih this h2)
        · have : piece ∈ List.splitOnP p xs := by rw [hsp]; exact List.mem_cons_of_mem h h1
          exact List.mem_cons_of_mem x (ih this hc)

theorem mem_of_mem_splitOn {a c : Char} {s piece : Str}
    (hp : piece ∈ s.splitOn a) (hc : c ∈ piece) : c ∈ s :=
  mem_of_mem_splitOnP (p := (· == a)) hp hc

/-! ## The exclusion patterns are already lower-cased -/

theorem excluded_keywords_lowered (c : Criteria) :
    ∀ p ∈ excluded_keywords_of c, lower p = p := by
  unfold excluded_keywords_of
  cases c.exclude_keywords with
  | none => intro p hp; exact absurd hp (List.not_mem_nil p)
  | some s =>
    dsimp only
    by_cases hempty : s.isEmpty
    · rw [if_pos hempty]
      intro p hp
      exact absurd hp (List.not_mem_nil p)
    · rw [if_neg hempty]
      intro p hp
      have hp1 := List.mem_of_mem_filter hp
      obtain ⟨k, hk, rfl⟩ := List.mem_map.mp hp1
      refine lower_eq_self ?_
      intro ch hch
      exact toLower_eq_self_of_mem_lower (mem_of_mem_splitOn hk (mem_of_mem_pyStrip hch))

theorem fixed_exclude_patterns_lowered :
    ∀ p ∈ fixed_exclude_patterns, lower p = p := by decide

theorem exclude_patterns_lowered (c : Criteria) :
    ∀ p ∈ exclude_patterns c, lower p = p := by
  intro p hp
  rcases List.mem_append.mp hp with h1 | h1
  · exact fixed_exclude_patterns_lowered p h1
  · exact excluded_keywords_lowered c p h1

theorem any_congr {α : Type} {l : List α} {f g : α → Bool}
    (h : ∀ a ∈ l, f a = g a) : l.any f = l.any g := by
  induction l with
  | nil => rfl
  | cons x xs ih =>
    simp only [List.any_cons]
    rw [h x (List.mem_cons_self x xs), ih (fun a ha => h a (List.mem_cons_of_mem x ha))]

theorem claim_not_excluded_eq (c : Criteria) (r : SearchHit) :
    claim_not_excluded c r = !is_excluded c r := by
  unfold claim_not_excluded is_excluded
  have hterms : claim_excluded_terms c = exclude_patterns c := rfl
  rw [hterms]
  congr 1
  refine any_congr ?_
  intro p hp
  unfold occursCI
  rw [exclude_patterns_lowered c p hp]

/-! ## The stable descending sort -/

theorem insertDesc_perm (x : CareerPage) (l : List CareerPage) :
    (insertDesc x l).Perm (x :: l) := by
  induction l with
  | nil => exact List.Perm.refl _
  | cons y ys ih =>
    unfold insertDesc
    by_cases h : y.relevance_score < x.relevance_score
    · rw [if_pos h]
    · rw [if_neg h]
      exact (ih.cons y).trans (List.Perm.swap x y ys)

theorem foldl_insertDesc_perm :
    ∀ (l acc : List CareerPage),
      (l.foldl (fun acc x => insertDesc x acc) acc).Perm (acc ++ l) := by
  intro l
  induction l with
  | nil => intro acc; simp
  | cons x xs ih =>
    intro acc
    rw [List.foldl_cons]
    refine (ih (insertDesc x acc)).trans ?_
    refine ((insertDesc_perm x acc).append_right xs).trans ?_
    exact List.perm_middle.symm

theorem pySortDesc_perm (l : List CareerPage) : (pySortDesc l).Perm l := by
  have h := foldl_insertDesc_perm l []
  simpa [pySortDesc] using h

theorem insertDesc_pairwise {x : CareerPage} {l : List CareerPage}
    (hl : l.Pairwise (fun a b => b.relevance_score ≤ a.relevance_score)) :
    (insertDesc x l).Pairwise (fun a b => b.relevance_score ≤ a.relevance_score) := by
  induction l with
  | nil => simp [insertDesc]
  | cons y ys ih =>
    unfold insertDesc
    rcases List.pairwise_cons.mp hl with ⟨hy, hys⟩
    by_cases h : y.relevance_score < x.relevance_score
    · rw [if_pos h]
      refine List.pairwise_cons.mpr ⟨?_, hl⟩
      intro z hz
      rcases List.mem_cons.mp hz with rfl | hz2
      · exact le_of_lt h
      · exact le_trans (hy z hz2) (le_of_lt h)
    · rw [if_neg h]
      refine List.pairwise_cons.mpr ⟨?_, ih hys⟩
      intro z hz
      have hz2 := (insertDesc_perm x ys).mem_iff.mp hz
      rcases List.mem_cons.mp hz2 with rfl | hz3
      · exact not_lt.mp h
      · exact hy z hz3

theorem foldl_insertDesc_pairwise :
    ∀ (l acc : List CareerPage),
      acc.Pairwise (fun a b => b.relevance_score ≤ a.relevance_score) →
      (l.foldl (fun acc x => insertDesc x acc) acc).Pairwise
        (fun a b => b.relevance_score ≤ a.relevance_score) := by
  intro l
  induction l with
  | nil => intro acc h; exact h
  | cons x xs ih => intro acc h; exact ih (insertDesc x acc) (insertDesc_pairwise h)

theorem pySortDesc_pairwise (l : List CareerPage) :
    (pySortDesc l).Pairwise (fun a b => b.relevance_score ≤ a.relevance_score) :=
  foldl_insertDesc_pairwise l [] (List.Pairwise.nil)

theorem insertDesc_filter (s : ℚ) (x : CareerPage) {l : List CareerPage}
    (hl : l.Pairwise (fun a b => b.relevance_score ≤ a.relevance_score)) :
    (insertDesc x l).filter (fun p => decide (p.relevance_score = s)) =
      l.filter (fun p => decide (p.relevance_score = s))
        ++ (if x.relevance_score = s then [x] else []) := by
  induction l with
  | nil =>
    by_cases h : x.relevance_score = s <;> simp [insertDesc, h]
  | cons y ys ih =>
    unfold insertDesc
    rcases List.pairwise_cons.mp hl with ⟨hy, hys⟩
    by_cases h : y.relevance_score < x.relevance_score
    · rw [if_pos h]
      by_cases hx : x.relevance_score = s
      · have hnil : (y :: ys).filter (fun p => decide (p.relevance_score = s)) = [] := by
          rw [List.filter_eq_nil_iff]
          intro z hz
          have : z.relevance_score < s := by
            rcases List.mem_cons.mp hz with rfl | hz2
            · rw [← hx]; exact h
            · rw [← hx]; exact lt_of_le_of_lt (hy z hz2) h
          simp [ne_of_lt this]
        rw [List.filter_cons, if_pos (by simp [hx]), hnil, if_pos hx]
        rfl
      · rw [List.filter_cons, if_neg (by simp [hx]), if_neg hx, List.append_nil]
    · rw [if_neg h]
      rw [List.filter_cons, List.filter_cons]
      by_cases hy2 : y.relevance_score = s
      · rw [if_pos (by simp [hy2]), if_pos (by simp [hy2]), ih hys, List.cons_append]
      · rw [if_neg (by simp [hy2]), if_neg (by simp [hy2]), ih hys]

theorem foldl_insertDesc_filter (s : ℚ) :
    ∀ (l acc : List CareerPage),
      acc.Pairwise (fun a b => b.relevance_score ≤ a.relevance_score) →
      (l.foldl (fun acc x => insertDesc x acc) acc).filter
          (fun p => decide (p.relevance_score = s)) =
        acc.filter (fun p => decide (p.relevance_score = s))
          ++ l.filter (fun p => decide (p.relevance_score = s)) := by
  intro l
  induction l with
  | nil => intro acc h; simp
  | cons x xs ih =>
    intro acc h
    have h2 := ih (insertDesc x acc) (insertDesc_pairwise h)
    rw [List.foldl_cons, h2, insertDesc_filter s x h, List.filter_cons]
    by_cases hx : x.relevance_score = s
    · rw [if_pos hx, if_pos (by simp [hx]), List.append_assoc]
      rfl
    · rw [if_neg hx, if_neg (by simp [hx]), List.append_nil]

theorem pySortDesc_filter (s : ℚ) (l : List CareerPage) :
    (pySortDesc l).filter (fun p => decide (p.relevance_score = s)) =
      l.filter (fun p => decide (p.relevance_score = s)) := by
  have h := foldl_insertDesc_filter s l [] (List.Pairwise.nil)
  simpa [pySortDesc] using h

/-! ## Lemmas about the admission loop -/

theorem scan_nil (c : Criteria) (seen : List Str) : scan c [] seen = [] := rfl

theorem scan_cons (c : Criteria) (r : SearchHit) (rest : List SearchHit) (seen : List Str) :
    scan c (r :: rest) seen =
      if admitCond c seen r
      then mkCareerPage c r :: scan c rest (extract_domain r.url :: seen)
      else scan c rest seen := rfl

theorem seenAfter_cons (c : Criteria) (r : SearchHit) (rest : List SearchHit)
    (seen : List Str) :
    seenAfter c (r :: rest) seen =
      seenAfter c rest (if admitCond c seen r then extract_domain r.url :: seen else seen) :=
  rfl

theorem mkCareerPage_domain (c : Criteria) (r : SearchHit) :
    (mkCareerPage c r).domain = extract_domain r.url := rfl

theorem scan_append (c : Criteria) :
    ∀ (l₁ l₂ : List SearchHit) (seen : List Str),
      scan c (l₁ ++ l₂) seen = scan c l₁ seen ++ scan c l₂ (seenAfter c l₁ seen) := by
  intro l₁
  induction l₁ with
  | nil => intro l₂ seen; rfl
  | cons r rest ih =>
    intro l₂ seen
    rw [List.cons_append, scan_cons, scan_cons, seenAfter_cons]
    by_cases h : admitCond c seen r = true
    · rw [if_pos h, if_pos h, if_pos h, ih, List.cons_append]
    · rw [if_neg h, if_neg h, if_neg h, ih]

theorem mem_scan (c : Criteria) :
    ∀ (l : List SearchHit) (seen : List Str) (p : CareerPage),
      p ∈ scan c l seen →
      ∃ r, r ∈ l ∧ p = mkCareerPage c r
        ∧ (is_career_url r || is_career_title r || has_career_content r) = true
        ∧ is_excluded c r = false := by
  intro l
  induction l with
  | nil => intro seen p hp; exact absurd hp (List.not_mem_nil p)
  | cons r rest ih =>
    intro seen p hp
    rw [scan_cons] at hp
    by_cases h : admitCond c seen r = true
    · rw [if_pos h] at hp
      rcases List.mem_cons.mp hp with rfl | hp2
      · simp only [admitCond, Bool.and_eq_true, Bool.not_eq_true'] at h
        exact ⟨r, List.mem_cons_self r rest, rfl, h.1.1, h.1.2⟩
      · obtain ⟨r2, hr2, hrest⟩ := ih _ p hp2
        exact ⟨r2, List.mem_cons_of_mem r hr2, hrest⟩
    · rw [if_neg h] at hp
      obtain ⟨r2, hr2, hrest⟩ := ih _ p hp
      exact ⟨r2, List.mem_cons_of_mem r hr2, hrest⟩

theorem scan_domains_not_seen (c : Criteria) :
    ∀ (l : List SearchHit) (seen : List Str) (d : Str),
      d ∈ (scan c l seen).map (fun p => p.domain) → d ∉ seen := by
  intro l
  induction l with
  | nil => intro seen d hd; rw [scan_nil] at hd; exact absurd hd (List.not_mem_nil d)
  | cons r rest ih =>
    intro seen d hd
    rw [scan_cons] at hd
    by_cases h : admitCond c seen r = true
    · rw [if_pos h, List.map_cons, mkCareerPage_domain] at hd
      rcases List.mem_cons.mp hd with rfl | hd2
      · simp only [admitCond, Bool.and_eq_true, Bool.not_eq_true'] at h
        exact of_decide_eq_false h.2
      · intro hmem
        exact ih _ d hd2 (List.mem_cons_of_mem _ hmem)
    · rw [if_neg h] at hd
      exact ih seen d hd

theorem scan_domains_nodup (c : Criteria) :
    ∀ (l : List SearchHit) (seen : List Str),
      ((scan c l seen).map (fun p => p.domain)).Nodup := by
  intro l
  induction l with
  | nil => intro seen; rw [scan_nil]; exact List.nodup_nil
  | cons r rest ih =>
    intro seen
    rw [scan_cons]
    by_cases h : admitCond c seen r = true
    · rw [if_pos h, List.map_cons, mkCareerPage_domain]
      refine List.nodup_cons.mpr ⟨?_, ih (extract_domain r.url :: seen)⟩
      intro hmem
      exact scan_domains_not_seen c rest _ _ hmem (List.mem_cons_self _ _)
    · rw [if_neg h]
      exact ih seen

theorem scan_filter_seen (c : Criteria) (l : List SearchHit) (seen : List Str)
    (d : Str) (hd : d ∈ seen) :
    (scan c l seen).filter (fun p => decide (p.domain = d)) = [] := by
  rw [List.filter_eq_nil_iff]
  intro p hp
  have h1 := scan_domains_not_seen c l seen p.domain
    (List.mem_map_of_mem (fun p => p.domain) hp)
  simp only [decide_eq_true_eq]
  intro heq
  rw [heq] at h1
  exact h1 hd

theorem scan_find_eligible_none (c : Criteria) :
    ∀ (l : List SearchHit) (seen : List Str) (d : Str),
      List.find? (eligibleFor c d) l = none →
      (scan c l seen).filter (fun p => decide (p.domain = d)) = [] := by
  intro l
  induction l with
  | nil => intro seen d _; rfl
  | cons r rest ih =>
    intro seen d h
    cases he : eligibleFor c d r with
    | true => rw [List.find?_cons_of_pos rest he] at h; exact absurd h (by simp)
    | false =>
      rw [List.find?_cons_of_neg rest (by rw [he]; exact Bool.false_ne_true)] at h
      rw [scan_cons]
      by_cases hA : admitCond c seen r = true
      · rw [if_pos hA, List.filter_cons]
        have hsig := hA
        simp only [admitCond, Bool.and_eq_true, Bool.not_eq_true'] at hsig
        have hdne : extract_domain r.url ≠ d := by
          intro heq
          have : eligibleFor c d r = true := by
            simp only [eligibleFor, Bool.and_eq_true, Bool.not_eq_true']
            exact ⟨⟨hsig.1.1, hsig.1.2⟩, decide_eq_true heq⟩
          rw [he] at this
          exact Bool.false_ne_true this
        rw [if_neg (by simp [mkCareerPage_domain, hdne])]
        exact ih _ d h
      · rw [if_neg hA]
        exact ih seen d h

theorem scan_find_eligible_some (c : Criteria) :
    ∀ (l : List SearchHit) (seen : List Str) (d : Str) (r : SearchHit),
      List.find? (eligibleFor c d) l = some r → d ∉ seen →
      (scan c l seen).filter (fun p => decide (p.domain = d)) = [mkCareerPage c r] := by
  intro l
  induction l with
  | nil => intro seen d r h _; exact absurd h (by simp [List.find?])
  | cons r0 rest ih =>
    intro seen d r h hd
    cases he : eligibleFor c d r0 with
    | true =>
      rw [List.find?_cons_of_pos rest he, Option.some.injEq] at h
      subst h
      simp only [eligibleFor, Bool.and_eq_true, Bool.not_eq_true', decide_eq_true_eq] at he
      obtain ⟨⟨hsig, hexcl⟩, hdom⟩ := he
      have hA : admitCond c seen r0 = true := by
        simp only [admitCond, Bool.and_eq_true, Bool.not_eq_true']
        exact ⟨⟨hsig, hexcl⟩, decide_eq_false (by rw [hdom]; exact hd)⟩
      rw [scan_cons, if_pos hA, List.filter_cons,
        if_pos (by simp [mkCareerPage_domain, hdom]),
        scan_filter_seen c rest _ d (by rw [← hdom]; exact List.mem_cons_self _ _)]
    | false =>
      rw [List.find?_cons_of_neg rest (by rw [he]; exact Bool.false_ne_true)] at h
      by_cases hA : admitCond c seen r0 = true
      · have hsig := hA
        simp only [admitCond, Bool.and_eq_true, Bool.not_eq_true'] at hsig
        have hdne : extract_domain r0.url ≠ d := by
          intro heq
          have : eligibleFor c d r0 = true := by
            simp only [eligibleFor, Bool.and_eq_true, Bool.not_eq_true']
            exact ⟨⟨hsig.1.1, hsig.1.2⟩, decide_eq_true heq⟩
          rw [he] at this
          exact Bool.false_ne_true this
        rw [scan_cons, if_pos hA, List.filter_cons,
          if_neg (by simp [mkCareerPage_domain, hdne])]
        refine ih _ d r h ?_
        intro hmem
        rcases List.mem_cons.mp hmem with heq | hmem2
        · exact hdne heq.symm
        · exact hd hmem2
      · rw [scan_cons, if_neg hA]
        exact ih seen d r h hd

theorem filter_length_le_one_of_nodup_domains {l : List CareerPage} {d : Str}
    (h : (l.map (fun p => p.domain)).Nodup) :
    (l.filter (fun p => decide (p.domain = d))).length ≤ 1 := by
  induction l with
  | nil => simp
  | cons x xs ih =>
    rw [List.map_cons, List.nodup_cons] at h
    rw [List.filter_cons]
    by_cases hx : x.domain = d
    · rw [if_pos (by simp [hx])]
      have hnil : xs.filter (fun p => decide (p.domain = d)) = [] := by
        rw [List.filter_eq_nil_iff]
        intro p hp
        simp only [decide_eq_true_eq]
        intro heq
        apply h.1
        rw [hx, ← heq]
        exact List.mem_map_of_mem (fun p => p.domain) hp
      rw [hnil]
      simp
    · rw [if_neg (by simp [hx])]
      exact ih h.2

theorem mem_seenAfter (c : Criteria) :
    ∀ (l : List SearchHit) (seen : List Str) (x : Str),
      x ∈ seenAfter c l seen ↔
        x ∈ (scan c l seen).map (fun p => p.domain) ∨ x ∈ seen := by
  intro l
  induction l with
  | nil =>
    intro seen x
    rw [scan_nil]
    show x ∈ seen ↔ _
    simp
  | cons r rest ih =>
    intro seen x
    rw [seenAfter_cons, scan_cons]
    by_cases h : admitCond c seen r = true
    · rw [if_pos h, if_pos h, List.map_cons, mkCareerPage_domain, ih]
      simp only [List.mem_cons]
      tauto
    · rw [if_neg h, if_neg h]
      exact ih seen x

/-- The classifier output is the stable descending sort of the admission
scan, in every case (the empty-input early return included). -/
theorem output_eq_sort_scan (hits : List SearchHit) (c : Criteria) :
    filter_career_pages_locally hits c = pySortDesc (scan c hits []) := by
  cases hits <;> rfl

theorem output_domains_nodup (hits : List SearchHit) (c : Criteria) :
    ((filter_career_pages_locally hits c).map (fun p => p.domain)).Nodup := by
  rw [output_eq_sort_scan]
  exact (((pySortDesc_perm (scan c hits [])).map (fun p => p.domain)).symm).nodup
    (scan_domains_nodup c hits [])

theorem output_filter_domain_some (hits : List SearchHit) (c : Criteria) (d : Str)
    (r : SearchHit) (h : List.find? (eligibleFor c d) hits = some r) :
    (filter_career_pages_locally hits c).filter (fun p => decide (p.domain = d))
      = [mkCareerPage c r] := by
  rw [output_eq_sort_scan]
  have hperm := (pySortDesc_perm (scan c hits [])).filter (fun p => decide (p.domain = d))
  rw [scan_find_eligible_some c hits [] d r h (List.not_mem_nil d)] at hperm
  exact List.perm_singleton.mp hperm

theorem output_filter_domain_none (hits : List SearchHit) (c : Criteria) (d : Str)
    (h : List.find? (eligibleFor c d) hits = none) :
    (filter_career_pages_locally hits c).filter (fun p => decide (p.domain = d)) = [] := by
  rw [output_eq_sort_scan]
  have hperm := (pySortDesc_perm (scan c hits [])).filter (fun p => decide (p.domain = d))
  rw [scan_find_eligible_none c hits [] d h] at hperm
  exact hperm.eq_nil

theorem output_mem (hits : List SearchHit) (c : Criteria) (p : CareerPage)
    (hp : p ∈ filter_career_pages_locally hits c) :
    ∃ r, r ∈ hits ∧ p = mkCareerPage c r
      ∧ (is_career_url r || is_career_title r || has_career_content r) = true
      ∧ is_excluded c r = false := by
  rw [output_eq_sort_scan] at hp
  exact mem_scan c hits [] p ((pySortDesc_perm (scan c hits [])).mem_iff.mp hp)

/-! ## The claims -/

/-- C1: a hit is admitted by the local classifier exactly when a career
signal fires in its URL, title or snippet, no exclusion term (the fixed
list unioned with the caller-supplied terms, lower-cased, trimmed, empty
dropped) occurs case-insensitively in its URL, title or snippet, and its
normalized domain has not already produced an admitted candidate earlier
in scan order; in particular no admitted candidate carries any
caller-supplied excluded term in its URL, title or description. -/
theorem C1_admission_rule (c : Criteria) (pre : List SearchHit) (r : SearchHit)
    (post : List SearchHit) :
    scan c (pre ++ r :: post) [] =
      scan c pre [] ++
        (if admitCond c (seenAfter c pre []) r
         then mkCareerPage c r :: scan c post (extract_domain r.url :: seenAfter c pre [])
         else scan c post (seenAfter c pre []))
    ∧ admitCond c (seenAfter c pre []) r =
        (claim_career_signal r && claim_not_excluded c r
          && !(decide (extract_domain r.url ∈ (scan c pre []).map (fun p => p.domain))))
    ∧ (filter_career_pages_locally (pre ++ r :: post) c).all (fun p =>
        (excluded_keywords_of c).all (fun kw =>
          !(containsSub kw (lower p.career_url) || containsSub kw (lower p.title)
            || containsSub kw (lower p.description)))) = true := by
  refine ⟨?_, ?_, ?_⟩
  · rw [scan_append c pre (r :: post) [], scan_cons]
  · have hsig : claim_career_signal r
        = (is_career_url r || is_career_title r || has_career_content r) := rfl
    rw [hsig, claim_not_excluded_eq]
    unfold admitCond
    congr 1
    congr 1
    rw [decide_eq_decide, mem_seenAfter]
    simp
  · rw [List.all_eq_true]
    intro p hp
    rw [List.all_eq_true]
    intro kw hkw
    obtain ⟨r2, _, rfl, _, hexcl⟩ := output_mem _ c p hp
    rw [Bool.not_eq_true']
    unfold is_excluded at hexcl
    rw [List.any_eq_false] at hexcl
    exact Bool.eq_false_iff.mpr (hexcl kw (List.mem_append_right _ hkw))

/-- C3: the classifier output is sorted by relevance score in descending
order; candidates of equal score keep the relative order of the admission
scan, which processes the hits in input order (stability); the empty
input yields the empty output. -/
theorem C3_sorted_stable (hits : List SearchHit) (c : Criteria) :
    (filter_career_pages_locally hits c).Pairwise
      (fun a b => b.relevance_score ≤ a.relevance_score)
    ∧ (∀ s : ℚ,
        (filter_career_pages_locally hits c).filter
            (fun p => decide (p.relevance_score = s))
          = (scan c hits []).filter (fun p => decide (p.relevance_score = s)))
    ∧ filter_career_pages_locally [] c = [] := by
  refine ⟨?_, ?_, rfl⟩
  · rw [output_eq_sort_scan]
    exact pySortDesc_pairwise _
  · intro s
    rw [output_eq_sort_scan]
    exact pySortDesc_filter s _

/-- C2 counterexample: two hits share the domain `acme.com`; the first
carries no career signal, so the candidate for the domain is produced by
the second hit, not by the first in scan order. -/
theorem C2_counterexample :
    extract_domain hitAbout.url = extract_domain hitCareers.url
    ∧ filter_career_pages_locally [hitAbout, hitCareers] critPlain
        = [mkCareerPage critPlain hitCareers]
    ∧ mkCareerPage critPlain hitCareers ≠ mkCareerPage critPlain hitAbout := by
  refine ⟨by decide, ?_, ?_⟩
  · show pySortDesc (scan critPlain [hitAbout, hitCareers] []) = _
    rw [scan_cons, if_neg (by decide), scan_cons, if_pos (by decide), scan_nil]
    rfl
  · intro h
    exact absurd (congrArg CareerPage.career_url h) (by decide)

/-- C2 (amended): no two candidates in the output share a domain; among
the hits of one domain that pass the career-signal and exclusion checks,
the first in scan order produces the unique candidate of that domain;
when no hit of a domain passes those checks the domain is absent; every
candidate stems from a single hit (discarded, not merged). -/
theorem C2_domain_dedup (hits : List SearchHit) (c : Criteria) :
    ((filter_career_pages_locally hits c).map (fun p => p.domain)).Nodup
    ∧ (∀ (d : Str) (r : SearchHit),
        List.find? (eligibleFor c d) hits = some r →
        (filter_career_pages_locally hits c).filter (fun p => decide (p.domain = d))
          = [mkCareerPage c r])
    ∧ (∀ d : Str,
        List.find? (eligibleFor c d) hits = none →
        (filter_career_pages_locally hits c).filter (fun p => decide (p.domain = d)) = [])
    ∧ (∀ p ∈ filter_career_pages_locally hits c, ∃ r ∈ hits, p = mkCareerPage c r) := by
  refine ⟨output_domains_nodup hits c, ?_, ?_, ?_⟩
  · intro d r h
    exact output_filter_domain_some hits c d r h
  · intro d h
    exact output_filter_domain_none hits c d h
  · intro p hp
    obtain ⟨r, hr, heq, _, _⟩ := output_mem hits c p hp
    exact ⟨r, hr, heq⟩

/-- C2 witness: on a concrete run, the unique candidate of the
`acme.com` domain is the one produced by the first eligible hit. -/
theorem C2_witness :
    (filter_career_pages_locally [hitAbout, hitCareers] critPlain).filter
        (fun p => decide (p.domain = extract_domain hitCareers.url))
      = [mkCareerPage critPlain hitCareers] :=
  (C2_domain_dedup [hitAbout, hitCareers] critPlain).2.1
    (extract_domain hitCareers.url) hitCareers (by decide)

/-- C10 counterexample: a protocol-relative URL lacks a scheme, yet its
parsed host is nonempty, so the extracted domain is neither empty nor the
raw URL. -/
theorem C10_counterexample :
    stripScheme (stripCtlChars ("//www.acme.com/careers".toList))
        = stripCtlChars ("//www.acme.com/careers".toList)
    ∧ extract_domain ("//www.acme.com/careers".toList) = ("acme.com".toList)
    ∧ extract_domain ("//www.acme.com/careers".toList) ≠ [] := by
  refine ⟨by decide, by decide, by decide⟩

/-- C10 (amended): a URL without a scheme and without a leading `//`
parses to an empty netloc, so its extracted domain is the empty string;
consequently all such hits share the domain `""`, at most one candidate
of domain `""` appears in a run, and it is produced by the first hit that
passes the career-signal and exclusion checks among those normalizing to
`""`. -/
theorem C10_schemeless (url : Str) (hits : List SearchHit) (c : Criteria) :
    (stripScheme (stripCtlChars url) = stripCtlChars url →
      (("//".toList).isPrefixOf (stripCtlChars url)) = false →
      extract_domain url = [])
    ∧ ((filter_career_pages_locally hits c).filter
        (fun p => decide (p.domain = ([] : Str)))).length ≤ 1
    ∧ (∀ r : SearchHit,
        List.find? (eligibleFor c []) hits = some r →
        (filter_career_pages_locally hits c).filter
            (fun p => decide (p.domain = ([] : Str)))
          = [mkCareerPage c r]) := by
  refine ⟨?_, ?_, ?_⟩
  · intro h1 h2
    have hn : urlparse_netloc url = some [] := by
      unfold urlparse_netloc
      rw [h1]
      split
      · next rest heq =>
        exfalso
        rw [heq] at h2
        simp [List.isPrefixOf] at h2
      · rfl
    unfold extract_domain
    rw [hn]
    rfl
  · exact filter_length_le_one_of_nodup_domains (output_domains_nodup hits c)
  · intro r h
    exact output_filter_domain_some hits c [] r h

/-- C10 witness: a bare host-and-path URL yields the empty domain. -/
theorem C10_witness : extract_domain ("acme.com/careers".toList) = [] :=
  (C10_schemeless ("acme.com/careers".toList) [] critPlain).1 (by decide) (by decide)

/-- C4 counterexample: a search-service result without a position field
becomes a hit with stored position `0`, and its position term is the
maximum `1.0`, not `0`. -/
theorem C4_counterexample :
    srNoPos.position = none
    ∧ (mkRawResult [] srNoPos).position = some 0
    ∧ position_score (mkRawResult [] srNoPos) = 1 := by
  refine ⟨rfl, rfl, ?_⟩
  unfold position_score mkRawResult srNoPos
  norm_num

/-- C4 (amended): the relevance score includes the position term
`max 0 ((10 − position) × 0.1)` over the stored position of the hit; a
search-service result carrying a position keeps it; one carrying no
position field is stored with position `0`, so its term is `1.0` (the
maximum); only a hit record whose position key is absent altogether
defaults to `10`, contributing `0`. -/
theorem C4_position_term (sr : SerpResult) (q : Str) (r : SearchHit) (c : Criteria) :
    calculate_relevance_score r c =
        url_quality_score r + industry_title_score r c + company_size_score r c
          + dot_com_score r + www_score r + position_score r
    ∧ (∀ p : Int, sr.position = some p →
        position_score (mkRawResult q sr) = max 0 ((10 - (p : ℚ)) * (1/10)))
    ∧ (sr.position = none → position_score (mkRawResult q sr) = 1)
    ∧ (r.position = none → position_score r = 0) := by
  refine ⟨rfl, ?_, ?_, ?_⟩
  · intro p hp
    unfold position_score mkRawResult
    rw [hp]
    rfl
  · intro hp
    unfold position_score mkRawResult
    rw [hp]
    norm_num
  · intro hp
    unfold position_score
    rw [hp]
    norm_num

/-- C4 witness: a result at rank three contributes `0.7`, and a hit
record without a position contributes `0`. -/
theorem C4_witness :
    position_score (mkRawResult [] srPos3) = max 0 ((10 - ((3 : Int) : ℚ)) * (1/10))
    ∧ position_score hitNoPos = 0 :=
  ⟨(C4_position_term srPos3 [] hitNoPos critPlain).2.1 3 rfl,
   (C4_position_term srPos3 [] hitNoPos critPlain).2.2.2 rfl⟩

/-- C5 counterexample: for the industry `Technology & Software`, a title
containing the token `software` (but neither piece `technology ` nor
` software` of the ampersand split) gains nothing from the industry
rule. -/
theorem C5_counterexample :
    critTech.industry = some ("Technology & Software".toList)
    ∧ containsSub ("software".toList) (lower hitSoftware.title) = true
    ∧ industry_title_score hitSoftware critTech = 0 := by
  refine ⟨rfl, by decide, ?_⟩
  unfold industry_title_score
  rw [if_neg (by decide)]

/-- C5 (amended): for every hit and criteria, the industry rule adds
exactly `2.0` when the lower-cased title contains one of the pieces of
the lower-cased industry label split on the ampersand (the pieces keep
their surrounding whitespace), and `0` otherwise; for the industry
`Technology & Software` those pieces are `technology ` and
` software`. -/
theorem C5_industry_pieces (r : SearchHit) (c : Criteria) :
    (industry_title_score r c = 2 ∨ industry_title_score r c = 0)
    ∧ (industry_title_score r c = 2 ↔
        ((lower (c.industry.getD [])).splitOn '&').any
          (fun w => containsSub w (lower r.title)) = true)
    ∧ (c.industry = some ("Technology & Software".toList) →
        (industry_title_score r c = 2 ↔
          (containsSub ("technology ".toList) (lower r.title)
            || containsSub (" software".toList) (lower r.title)) = true)) := by
  have hmain : (industry_title_score r c = 2 ∨ industry_title_score r c = 0)
      ∧ (industry_title_score r c = 2 ↔
          ((lower (c.industry.getD [])).splitOn '&').any
            (fun w => containsSub w (lower r.title)) = true) := by
    unfold industry_title_score
    dsimp only
    by_cases hc : ((lower (c.industry.getD [])).splitOn '&').any
        (fun w => containsSub w (lower r.title)) = true
    · rw [if_pos hc]
      exact ⟨Or.inl rfl, fun _ => hc, fun _ => rfl⟩
    · rw [if_neg hc]
      refine ⟨Or.inr rfl, ?_, ?_⟩
      · intro h2
        exfalso
        norm_num at h2
      · intro h2
        exact absurd h2 hc
  refine ⟨hmain.1, hmain.2, ?_⟩
  intro h
  rw [hmain.2]
  have hsplit : (lower (c.industry.getD [])).splitOn '&'
      = [("technology ".toList), (" software".toList)] := by
    rw [h]
    decide
  rw [hsplit]
  simp [List.any_cons, List.any_nil]

/-- C5 witness: a title containing the piece `technology ` gains the
industry bonus. -/
theorem C5_witness : industry_title_score hitTechNews critTech = 2 :=
  ((C5_industry_pieces hitTechNews critTech).2.2 rfl).mpr (by decide)

/-- Truncation bound of the Python slice for a nonnegative count. -/
theorem pyTake_length {α : Type} (n : Int) (l : List α) (h : 0 ≤ n) :
    (pyTake n l).length ≤ n.toNat := by
  unfold pyTake
  rw [if_neg (not_lt.mpr h)]
  rw [List.length_take]
  exact min_le_left _ _

/-- C6 counterexample: with a partial service configuration (no API key)
the re-ranking step returns the candidate list unchanged, not truncated
to the requested count of one. -/
theorem C6_counterexample :
    azure_client_configured none (some ("e".toList)) (some ("d".toList)) = false
    ∧ filter_career_pages_with_llm
        (azure_client_configured none (some ("e".toList)) (some ("d".toList)))
        [mkTestPage 0, mkTestPage 1] critOne none
      = [mkTestPage 0, mkTestPage 1]
    ∧ filter_career_pages_with_llm
        (azure_client_configured none (some ("e".toList)) (some ("d".toList)))
        [mkTestPage 0, mkTestPage 1] critOne none
      ≠ pyTake (pyNumResults critOne) [mkTestPage 0, mkTestPage 1] := by
  refine ⟨rfl, by decide, by decide⟩

/-- C6 (amended): a parse failure of the service response yields the
pre-ranked candidates truncated to the requested count, but an absent
client (in particular any partial configuration) yields the candidate
list unchanged, without truncation. -/
theorem C6_fallback (pages : List CareerPage) (c : Criteria) :
    filter_career_pages_with_llm true pages c none = pyTake (pyNumResults c) pages
    ∧ (∀ llm : Option (List Int), filter_career_pages_with_llm false pages c llm = pages)
    ∧ (∀ (e d2 : Option Str) (llm : Option (List Int)),
        filter_career_pages_with_llm (azure_client_configured none e d2) pages c llm
          = pages) := by
  refine ⟨?_, fun llm => rfl, fun e d2 llm => rfl⟩
  by_cases h : pages.isEmpty = true
  · have h2 : pages = [] := List.isEmpty_iff.mp h
    subst h2
    unfold filter_career_pages_with_llm pyTake
    simp
  · unfold filter_career_pages_with_llm
    rw [if_neg ?hcond]
    case hcond =>
      show ¬((!true || pages.isEmpty) = true)
      simp only [Bool.not_true, Bool.false_or]
      exact h

/-- C7 counterexample: with fifty-one candidates, the summaries submitted
to the service cover only the first fifty, yet the response index `51` is
not ignored — it selects the fifty-first candidate, which was never
submitted. -/
theorem C7_counterexample :
    (prompt_companies pagesFiftyOne).length = 50
    ∧ mkTestPage 50 ∉ prompt_companies pagesFiftyOne
    ∧ filter_career_pages_with_llm true pagesFiftyOne critOne (some [51])
        = [mkTestPage 50] := by
  refine ⟨by decide, by decide, by decide⟩

/-- C7 (amended): at most the first 100 candidates are summarized and at
most 50 summaries are submitted; each 1-based index within the range of
the full candidate list selects that candidate of the full list, indices
outside that range are ignored, and the result is truncated to the
requested count. -/
theorem C7_index_mapping (pages : List CareerPage) (c : Criteria) (selected : List Int) :
    pages_summary pages = pages.take 100
    ∧ (pages_summary pages).length ≤ 100
    ∧ prompt_companies pages = (pages_summary pages).take 50
    ∧ (prompt_companies pages).length ≤ 50
    ∧ (∀ p ∈ selected_pages pages selected, p ∈ pages)
    ∧ (∀ idx : Int, 1 ≤ idx → idx ≤ (pages.length : Int) →
        selected_pages pages [idx] = (pages[(idx - 1).toNat]?).toList)
    ∧ (∀ idx : Int, idx < 1 ∨ (pages.length : Int) < idx →
        selected_pages pages [idx] = [])
    ∧ (pages ≠ [] →
        filter_career_pages_with_llm true pages c (some selected)
          = if selected_pages pages selected = []
            then pyTake (pyNumResults c) pages
            else pyTake (pyNumResults c) (selected_pages pages selected))
    ∧ (0 ≤ pyNumResults c →
        (filter_career_pages_with_llm true pages c (some selected)).length
          ≤ (pyNumResults c).toNat) := by
  refine ⟨rfl, ?_, rfl, ?_, ?_, ?_, ?_, ?_, ?_⟩
  · show (pages.take 100).length ≤ 100
    rw [List.length_take]
    exact min_le_left _ _
  · show ((pages.take 100).take 50).length ≤ 50
    rw [List.length_take]
    exact min_le_left _ _
  · intro p hp
    unfold selected_pages at hp
    rw [List.mem_filterMap] at hp
    obtain ⟨idx, _, heq⟩ := hp
    by_cases hr : 1 ≤ idx ∧ idx ≤ (pages.length : Int)
    · rw [if_pos hr] at heq
      obtain ⟨hlt, hEq⟩ := List.getElem?_eq_some.mp heq
      rw [← hEq]
      exact List.getElem_mem hlt
    · rw [if_neg hr] at heq
      exact absurd heq (by simp)
  · intro idx h1 h2
    unfold selected_pages
    simp only [List.filterMap_cons, List.filterMap_nil]
    rw [if_pos (And.intro h1 h2)]
    cases hg : pages[(idx - 1).toNat]? with
    | none => simp
    | some b => simp
  · intro idx hor
    have hn : ¬(1 ≤ idx ∧ idx ≤ (pages.length : Int)) := by
      rcases hor with h | h <;> omega
    unfold selected_pages
    simp only [List.filterMap_cons, List.filterMap_nil]
    rw [if_neg hn]
  · intro hne
    unfold filter_career_pages_with_llm
    rw [if_neg ?hc8]
    case hc8 =>
      show ¬((!true || pages.isEmpty) = true)
      simp only [Bool.not_true, Bool.false_or]
      exact fun hh => hne (List.isEmpty_iff.mp hh)
    dsimp only
    by_cases hf : selected_pages pages selected = []
    · rw [hf, if_neg (by decide), if_pos rfl]
    · have hemp : (selected_pages pages selected).isEmpty = false := by
        cases hsp : selected_pages pages selected with
        | nil => exact absurd hsp hf
        | cons a t => rfl
      rw [hemp, if_pos (by decide), if_neg hf]
  · intro hnum
    unfold filter_career_pages_with_llm
    by_cases h : pages.isEmpty = true
    · have h2 : pages = [] := List.isEmpty_iff.mp h
      subst h2
      simp
    · rw [if_neg ?hc9]
      case hc9 =>
        show ¬((!true || pages.isEmpty) = true)
        simp only [Bool.not_true, Bool.false_or]
        exact h
      dsimp only
      by_cases hf : (selected_pages pages selected).isEmpty = true
      · rw [hf, if_neg (by decide)]
        exact pyTake_length _ _ hnum
      · have hemp : (selected_pages pages selected).isEmpty = false :=
          Bool.eq_false_iff.mpr hf
        rw [hemp, if_pos (by decide)]
        exact pyTake_length _ _ hnum

/-- C7 witness: on a concrete run the in-range index two selects the
second candidate and the output is the truncated selection. -/
theorem C7_witness :
    filter_career_pages_with_llm true [mkTestPage 0, mkTestPage 1] critOne (some [2])
      = pyTake (pyNumResults critOne) (selected_pages [mkTestPage 0, mkTestPage 1] [2])
    ∧ (filter_career_pages_with_llm true [mkTestPage 0, mkTestPage 1] critOne
        (some [2])).length ≤ (pyNumResults critOne).toNat := by
  constructor
  · have h := (C7_index_mapping [mkTestPage 0, mkTestPage 1] critOne [2]).2.2.2.2.2.2.2.1
      (by decide)
    rw [h, if_neg (by decide)]
  · exact (C7_index_mapping [mkTestPage 0, mkTestPage 1] critOne [2]).2.2.2.2.2.2.2.2
      (by decide)

/-! ## Lemmas about the replace helper -/

theorem pyReplaceAux_nil_fuel (pat rep : Str) :
    ∀ f : Nat, pyReplaceAux pat rep f [] = [] := by
  intro f
  cases f with
  | zero => rfl
  | succ n =>
    cases pat with
    | nil => rfl
    | cons p ps => rfl

theorem containsSub_cons (pat : Str) (a : Char) (t : Str) :
    containsSub pat (a :: t) = (pat.isPrefixOf (a :: t) || containsSub pat t) := rfl

theorem pyReplaceAux_succ (pat rep : Str) (n : Nat) (a : Char) (t : Str) :
    pyReplaceAux pat rep (n + 1) (a :: t) =
      if !pat.isEmpty && pat.isPrefixOf (a :: t)
      then rep ++ pyReplaceAux pat rep n ((a :: t).drop pat.length)
      else a :: pyReplaceAux pat rep n t := rfl

theorem pyReplaceAux_fuel (pat rep : Str) :
    ∀ (f1 : Nat) (s : Str) (f2 : Nat), s.length ≤ f1 → s.length ≤ f2 →
      pyReplaceAux pat rep f1 s = pyReplaceAux pat rep f2 s := by
  intro f1
  induction f1 with
  | zero =>
    intro s f2 h1 _
    have hs : s = [] := List.eq_nil_of_length_eq_zero (Nat.le_zero.mp h1)
    subst hs
    rw [pyReplaceAux_nil_fuel, pyReplaceAux_nil_fuel]
  | succ n ih =>
    intro s f2 h1 h2
    cases s with
    | nil => rw [pyReplaceAux_nil_fuel, pyReplaceAux_nil_fuel]
    | cons a t =>
      cases f2 with
      | zero => exact absurd h2 (by simp)
      | succ m =>
        rw [pyReplaceAux_succ, pyReplaceAux_succ]
        by_cases hc : (!pat.isEmpty && pat.isPrefixOf (a :: t)) = true
        · rw [if_pos hc, if_pos hc]
          congr 1
          have hplen : 1 ≤ pat.length := by
            rw [Bool.and_eq_true] at hc
            obtain ⟨hne, _⟩ := hc
            cases pat with
            | nil => exact absurd hne (by decide)
            | cons _ _ => simp
          have hd1 : ((a :: t).drop pat.length).length ≤ n := by
            rw [List.length_drop]
            simp only [List.length_cons] at h1 ⊢
            omega
          have hd2 : ((a :: t).drop pat.length).length ≤ m := by
            rw [List.length_drop]
            simp only [List.length_cons] at h2 ⊢
            omega
          exact ih _ m hd1 hd2
        · rw [if_neg hc, if_neg hc]
          congr 1
          have ht1 : t.length ≤ n := by simp only [List.length_cons] at h1; omega
          have ht2 : t.length ≤ m := by simp only [List.length_cons] at h2; omega
          exact ih t m ht1 ht2

theorem pyReplaceAux_not_contained (pat rep : Str) (_hpat : pat ≠ []) :
    ∀ (f : Nat) (s : Str), s.length ≤ f → containsSub pat s = false →
      pyReplaceAux pat rep f s = s := by
  intro f
  induction f with
  | zero =>
    intro s h1 _
    have hs : s = [] := List.eq_nil_of_length_eq_zero (Nat.le_zero.mp h1)
    subst hs
    rfl
  | succ n ih =>
    intro s h1 h2
    cases s with
    | nil => rw [pyReplaceAux_nil_fuel]
    | cons a t =>
      rw [containsSub_cons] at h2
      have hor := Bool.or_eq_false_iff.mp h2
      rw [pyReplaceAux_succ, if_neg (by simp [hor.1])]
      have ht : t.length ≤ n := by simp only [List.length_cons] at h1; omega
      rw [ih t ht hor.2]

theorem pyReplace_not_contained {pat rep s : Str} (hpat : pat ≠ [])
    (h : containsSub pat s = false) : pyReplace pat rep s = s := by
  unfold pyReplace
  rw [if_neg ?hpe]
  case hpe => simp [List.isEmpty_iff, hpat]
  exact pyReplaceAux_not_contained pat rep hpat s.length s le_rfl h

theorem pyReplace_strip_head {pat rest : Str} (hpat : pat ≠ []) :
    pyReplace pat [] (pat ++ rest) = pyReplace pat [] rest := by
  cases pat with
  | nil => exact absurd rfl hpat
  | cons p ps =>
    unfold pyReplace
    rw [if_neg (by simp), if_neg (by simp)]
    show pyReplaceAux (p :: ps) [] ((ps ++ rest).length + 1) (p :: (ps ++ rest))
        = pyReplaceAux (p :: ps) [] rest.length rest
    rw [pyReplaceAux_succ, if_pos ?hpre]
    case hpre =>
      simp only [Bool.and_eq_true]
      constructor
      · simp
      · exact List.isPrefixOf_iff_prefix.mpr
          (show (p :: ps) <+: ((p :: ps) ++ rest) from List.prefix_append _ _)
    rw [List.nil_append]
    have hdrop : (p :: (ps ++ rest)).drop (p :: ps).length = rest :=
      List.drop_left (p :: ps) rest
    rw [hdrop]
    exact pyReplaceAux_fuel (p :: ps) [] _ rest _
      (by rw [List.length_append]; omega) le_rfl

/-- C8 counterexample: a netloc containing `www.` twice loses both
occurrences, while the specification strips only the leading prefix. -/
theorem C8_counterexample :
    extract_domain ("https://www.www.acme.com/jobs".toList) = ("acme.com".toList)
    ∧ extract_domain_claim ("https://www.www.acme.com/jobs".toList)
        = ("www.acme.com".toList)
    ∧ extract_domain ("https://www.www.acme.com/jobs".toList)
        ≠ extract_domain_claim ("https://www.www.acme.com/jobs".toList) := by
  refine ⟨by decide, by decide, by decide⟩

/-- C8 (amended): on a successful parse the extracted domain is the
lower-cased netloc with all occurrences of `www.` removed (Python
`str.replace` semantics), which agrees with the leading-prefix-only
reading exactly when no further `www.` occurrence remains after the
leading strip; on a parse failure the raw URL string is returned
unchanged. -/
theorem C8_domain_normalization (url : Str) :
    (∀ netloc : Str, urlparse_netloc url = some netloc →
      extract_domain url = pyReplace ("www.".toList) [] (lower netloc)
      ∧ (containsSub ("www.".toList) (stripLeadingWWW (lower netloc)) = false →
          extract_domain url = extract_domain_claim url))
    ∧ (urlparse_netloc url = none → extract_domain url = url) := by
  constructor
  · intro netloc hn
    have hd : extract_domain url = pyReplace ("www.".toList) [] (lower netloc) := by
      unfold extract_domain
      rw [hn]
    refine ⟨hd, ?_⟩
    intro hc
    have hcl : extract_domain_claim url = stripLeadingWWW (lower netloc) := by
      unfold extract_domain_claim
      rw [hn]
    rw [hd, hcl]
    unfold stripLeadingWWW at hc ⊢
    by_cases hp : (("www.".toList).isPrefixOf (lower netloc)) = true
    · rw [if_pos hp] at hc ⊢
      obtain ⟨t, ht⟩ := List.isPrefixOf_iff_prefix.mp hp
      have hdrop : (lower netloc).drop 4 = t := by
        rw [← ht]
        exact List.drop_left ("www.".toList) t
      rw [hdrop] at hc ⊢
      rw [← ht, pyReplace_strip_head (by decide)]
      exact pyReplace_not_contained (by decide) hc
    · rw [if_neg hp] at hc ⊢
      exact pyReplace_not_contained (by decide) hc
  · intro hn
    unfold extract_domain
    rw [hn]

/-- C8 witness: a single leading `www.` agrees with the specification
reading, and an unbalanced bracket makes parsing fail, returning the raw
URL. -/
theorem C8_witness :
    extract_domain ("https://www.acme.com/jobs".toList)
        = extract_domain_claim ("https://www.acme.com/jobs".toList)
    ∧ extract_domain ("http://[oops".toList) = ("http://[oops".toList) :=
  ⟨((C8_domain_normalization ("https://www.acme.com/jobs".toList)).1
      ("www.acme.com".toList) (by decide)).2 (by decide),
   (C8_domain_normalization ("http://[oops".toList)).2 (by decide)⟩

set_option maxRecDepth 4000 in
/-- C9: for either of the two enumerated company sizes the query is the
space-joined concatenation of the parenthesized industry OR-group (raw
label fallback built in), the parenthesized size OR-group, a location
clause only when the location is nonempty, and the fixed career group;
on the Technology and Software startup example with empty location the
query contains the expanded terms and no location clause. -/
theorem C9_query_shape (industry location : Str) (company_size : Str)
    (h : company_size ∈ company_sizes) :
    final_query industry company_size location =
      List.intercalate (" ".toList)
        ([("(".toList) ++ industry_keywords industry ++ (")".toList),
          ("(".toList) ++ size_keywords company_size ++ (")".toList)]
          ++ (if location.isEmpty then [] else [("location:".toList) ++ location])
          ++ [("(careers OR jobs OR hiring OR employment)".toList)])
    ∧ final_query ("Technology & Software".toList)
        ("Startups (Small to Medium)".toList) []
      = ("(software OR technology OR IT OR tech OR SaaS OR cloud OR AI OR data science) (startup OR emerging company OR scale-up OR tech company OR innovation) (careers OR jobs OR hiring OR employment)".toList)
    ∧ containsSub ("location:".toList)
        (final_query ("Technology & Software".toList)
          ("Startups (Small to Medium)".toList) []) = false := by
  refine ⟨?_, by decide, by decide⟩
  unfold final_query
  dsimp only
  have hsz : (size_keywords company_size).isEmpty = false := by
    rcases List.mem_cons.mp h with rfl | h2
    · decide
    · rcases List.mem_cons.mp h2 with rfl | h3
      · decide
      · exact absurd h3 (List.not_mem_nil _)
  rw [hsz, if_neg (by decide)]
  rfl

/-- C9 witness: the query for a large-corporation search in the Food and
Beverage industry with a location. -/
theorem C9_witness :
    final_query ("Food & Beverage".toList) ("MNCs (Large Corporations)".toList)
        ("USA".toList)
      = List.intercalate (" ".toList)
          ([("(".toList) ++ industry_keywords ("Food & Beverage".toList) ++ (")".toList),
            ("(".toList) ++ size_keywords ("MNCs (Large Corporations)".toList)
              ++ (")".toList)]
            ++ (if (("USA".toList) : Str).isEmpty then []
                else [("location:".toList) ++ ("USA".toList)])
            ++ [("(careers OR jobs OR hiring OR employment)".toList)]) :=
  (C9_query_shape ("Food & Beverage".toList) ("USA".toList)
    ("MNCs (Large Corporations)".toList) (by decide)).1

end JobHunter
